import Mathlib

/-
Verification of the nestjs-mapper core (packages/core/src): a shallow
embedding in Lean 4 of the path accessor, the rule registry, the mapping
executor `transform`, the method classifier and the auto-proxy layer.

JavaScript values are modelled as finite trees (`JSValue`): undefined,
null, booleans, numbers (as integers: no claim involves float-specific
behaviour), strings, and objects as ordered association lists of
string-keyed fields.  Property writes on primitives are the sloppy-mode
silent no-op; reads of built-in properties of primitives (such as
`"s".length`) are not modelled and read as undefined.  Aliasing between
objects is not representable in the tree model; none of the verified
properties depend on it.  All modelled operations are total Lean
functions, which embeds the fact that the corresponding code paths do
not throw.
-/

namespace NestMapper

inductive JSValue where
  | undefined
  | jnull
  | bool (b : Bool)
  | num (n : Int)
  | str (s : String)
  | obj (fields : List (String × JSValue))
  | func (id : Nat)

/-- typeof from JS: `typeof undefined = "undefined"`, `typeof null =
"object"`; functions (such as the methods and the `constructor` found on
a class prototype, modelled as opaque identities) have typeof
"function". -/
def typeofJS : JSValue → String
  | .undefined => "undefined"
  | .jnull => "object"
  | .bool _ => "boolean"
  | .num _ => "number"
  | .str _ => "string"
  | .obj _ => "object"
  | .func _ => "function"

def isNullish : JSValue → Bool
  | .undefined => true
  | .jnull => true
  | _ => false

def isUndefined : JSValue → Bool
  | .undefined => true
  | _ => false

def isObj : JSValue → Bool
  | .obj _ => true
  | _ => false

/-- JS truthiness, used by `input || {}` in `transform`. -/
def truthy : JSValue → Bool
  | .undefined => false
  | .jnull => false
  | .bool b => b
  | .num n => !(n == 0)
  | .str s => !(s == "")
  | .obj _ => true
  | .func _ => true

/-- First-occurrence lookup in a string-keyed association list (JS objects
and Maps hold at most one binding per key, so first = only). -/
def lookupStr {α : Type} : List (String × α) → String → Option α
  | [], _ => none
  | (k, v) :: rest, key => if k = key then some v else lookupStr rest key

/-- First-occurrence lookup in a Nat-keyed association list (models
`Map.get` with constructor identities as keys). -/
def lookupNat {α : Type} : List (Nat × α) → Nat → Option α
  | [], _ => none
  | (k, v) :: rest, key => if k = key then some v else lookupNat rest key

/-- JS property assignment on an object's field list: replace in place if
the key exists (preserving insertion order), append otherwise. -/
def setField {α : Type} : List (String × α) → String → α → List (String × α)
  | [], key, v => [(key, v)]
  | (k, w) :: rest, key, v =>
      if k = key then (key, v) :: rest else (k, w) :: setField rest key v

/-- Property read `o[key]`: field lookup on objects, undefined otherwise. -/
def JSValue.getProp : JSValue → String → JSValue
  | .obj fs, key => (lookupStr fs key).getD .undefined
  | _, _ => .undefined

/-- Property write `o[key] = v`: field update on objects, and the
sloppy-mode silent no-op on primitives. -/
def JSValue.setProp : JSValue → String → JSValue → JSValue
  | .obj fs, key, v => .obj (setField fs key v)
  | o, _, _ => o

/-- Own enumerable property names (`Object.keys`); for the modelled
objects this coincides with `Object.getOwnPropertyNames`. -/
def jsKeys : JSValue → List String
  | .obj fs => fs.map Prod.fst
  | _ => []

/-- JS `path.split('.')` on the character list: splitting on a single-char
separator never yields an empty list ("" splits to [""]). -/
def splitChars : List Char → List (List Char)
  | [] => [[]]
  | c :: cs =>
      if c = '.' then [] :: splitChars cs
      else
        match splitChars cs with
        | [] => [[c]]
        | w :: ws => (c :: w) :: ws

def splitDot (s : String) : List String :=
  (splitChars s.data).map (fun cs => String.mk cs)

/-- The reduce step of `getValue`: `acc?.[key]` — undefined once the
accumulator is nullish, property read otherwise. -/
def getSegs : JSValue → List String → JSValue
  | o, [] => o
  | o, key :: rest =>
      getSegs (if isNullish o then .undefined else o.getProp key) rest

/-- transformer.ts getValue: `path.split('.').reduce((acc, key) => acc?.[key], obj)`. -/
def getValue (o : JSValue) (path : String) : JSValue :=
  getSegs o (splitDot path)

/-- transformer.ts setValue, purified: `keys.pop()` takes the last segment,
the reduce walks `(acc[key] ??= {})` creating fresh containers for nullish
intermediates, then assigns at the last segment.  In-place mutation is
rendered as write-back of the updated child. -/
def setSegs : JSValue → List String → JSValue → JSValue
  | o, [], _ => o
  | o, [last], v => o.setProp last v
  | o, key :: rest, v =>
      let child := o.getProp key
      let child' := if isNullish child then JSValue.obj [] else child
      o.setProp key (setSegs child' rest v)

def setValue (o : JSValue) (path : String) (v : JSValue) : JSValue :=
  setSegs o (splitDot path) v

/-- A zero-argument-constructible class: the own fields a fresh instance
carries, plus the own properties of its prototype (for a TS class these
are the function-valued methods and `constructor`). -/
structure JSClass where
  key : Nat
  defaultFields : List (String × JSValue)
  protoFields : List (String × JSValue)

def newInstance (c : JSClass) : JSValue := .obj c.defaultFields

/-- Property read `o[key]` up the prototype chain: an own field shadows
the prototype (also when its value is undefined); a key absent from both
reads as undefined. -/
def getPropChain (protoFields : List (String × JSValue)) :
    JSValue → String → JSValue
  | .obj fs, key =>
      match lookupStr fs key with
      | some v => v
      | none => (lookupStr protoFields key).getD .undefined
  | _, _ => .undefined

/-! metadata.storage.ts — the rule registry.  A `MappingOptions` is a
source-path/target-path pair; the storage maps a mapper constructor
(an opaque identity, modelled as `Nat`) to its per-method ordered rule
lists.  `Map` iteration order and JS object key order are insertion
order, modelled by association lists updated first-occurrence. -/

structure MappingOptions where
  source : String
  target : String

structure MapperMeta where
  methods : List (String × List MappingOptions)

structure MetadataStorage where
  mappers : List (Nat × MapperMeta)

/-- `if (!meta.methods[method]) meta.methods[method] = []` followed by
`meta.methods[method].push(option)`. -/
def pushRule : List (String × List MappingOptions) → String → MappingOptions →
    List (String × List MappingOptions)
  | [], method, o => [(method, [o])]
  | (m, os) :: rest, method, o =>
      if m = method then (m, os ++ [o]) :: rest
      else (m, os) :: pushRule rest method o

/-- In-place mutation of the meta stored under `mapper`. -/
def updateMeta : List (Nat × MapperMeta) → Nat → String → MappingOptions →
    List (Nat × MapperMeta)
  | [], _, _, _ => []
  | (k, meta) :: rest, mapper, method, o =>
      if k = mapper then (k, ⟨pushRule meta.methods method o⟩) :: rest
      else (k, meta) :: updateMeta rest mapper method o

/-- `registerMapper`: insert an empty meta if the key is unseen (idempotent). -/
def MetadataStorage.registerMapper (s : MetadataStorage) (mapper : Nat) :
    MetadataStorage :=
  if (lookupNat s.mappers mapper).isSome then s
  else ⟨s.mappers ++ [(mapper, ⟨[]⟩)]⟩

/-- `registerMapping`: auto-register the mapper if unseen, then push the
rule onto the ordered list for `(mapper, method)`. -/
def MetadataStorage.registerMapping (s : MetadataStorage) (mapper : Nat)
    (method : String) (o : MappingOptions) : MetadataStorage :=
  let s' := s.registerMapper mapper
  ⟨updateMeta s'.mappers mapper method o⟩

/-- `getMappings`: `this.mappers.get(mapper)?.methods[method] || []`. -/
def MetadataStorage.getMappings (s : MetadataStorage) (mapper : Nat)
    (method : String) : List MappingOptions :=
  match lookupNat s.mappers mapper with
  | none => []
  | some meta => (lookupStr meta.methods method).getD []

/-! transformer.ts transform.  The global `metadataStorage` singleton is
threaded as an explicit parameter; the registry key is the mapper
instance's constructor identity (`mapper.constructor`).  The stages of
the function body are named so theorems can speak about them; composed
below, they are literally the code's algorithm. -/

/-- Pass 1 (explicit field mappings): for each rule in registration order,
`setValue(output, mapping.target, getValue(input, mapping.source))`,
starting from `new outputType()`. -/
def afterExplicit (s : MetadataStorage) (ctorKey : Nat) (method : String)
    (input : JSValue) (outputType : JSClass) : JSValue :=
  (s.getMappings ctorKey method).foldl
    (fun o m => setValue o m.target (getValue input m.source))
    (newInstance outputType)

/-- The `usedTargetKeys` set: pass 1 adds each rule's full `mapping.target`
string (membership below is `Set.has`). -/
def usedTargets (s : MetadataStorage) (ctorKey : Nat) (method : String) :
    List String :=
  (s.getMappings ctorKey method).map MappingOptions.target

/-- Membership in a list of strings (`Set.has` / `Array.includes`). -/
def hasKey : List String → String → Bool
  | [], _ => false
  | k :: ks, key => if k = key then true else hasKey ks key

/-- `const inputKeys = Object.keys(input || {})`. -/
def sourceKeys (input : JSValue) : List String :=
  jsKeys (if truthy input then input else .obj [])

/-- `const outputKeys = new Set([...getOwnPropertyNames(output),
...getOwnPropertyNames(getPrototypeOf(output))])`, computed after pass 1
has run (so it sees keys created by explicit rules). -/
def targetKeys (s : MetadataStorage) (ctorKey : Nat) (method : String)
    (input : JSValue) (outputType : JSClass) : List String :=
  jsKeys (afterExplicit s ctorKey method input outputType) ++
    outputType.protoFields.map Prod.fst

/-- One iteration of the automatic matching pass: copy `input[key]` into
`output[key]` when the key is present on the target, not consumed by an
explicit rule, and the target's current value is undefined or of the same
runtime typeof as the source's value.  `inputValue` reads an own property
(the key comes from `Object.keys(input)`); `outputValue` is the plain
property access `output[key]`, which goes up the prototype chain — for a
key present only on the prototype it reads the inherited (function-valued)
property, not undefined. -/
def autoStep (input : JSValue) (protoFields : List (String × JSValue))
    (outputKeys usedTargetKeys : List String)
    (o : JSValue) (key : String) : JSValue :=
  if hasKey outputKeys key && !hasKey usedTargetKeys key then
    let inputValue := input.getProp key
    let outputValue := getPropChain protoFields o key
    if isUndefined outputValue || typeofJS inputValue == typeofJS outputValue then
      o.setProp key inputValue
    else o
  else o

/-- transformer.ts transform: explicit rule pass, then the automatic
matching pass over the source's own enumerable keys. -/
def transform (s : MetadataStorage) (ctorKey : Nat) (method : String)
    (input : JSValue) (outputType : JSClass) : JSValue :=
  (sourceKeys input).foldl
    (autoStep input outputType.protoFields
      (targetKeys s ctorKey method input outputType)
      (usedTargets s ctorKey method))
    (afterExplicit s ctorKey method input outputType)

/-! mapper-factory.ts isEmptyOrAbstractMethod.  The classifier serializes
the method (`method.toString()`) and runs three JS regular expressions
with `.test`, i.e. it asks whether ANY substring of the source matches.
The patterns are embedded as data (`Pat`) and matched by a backtracking
matcher in continuation-passing style with a fuel bound large enough for
these star-guarded patterns, so lazy/greedy distinctions (irrelevant to
`.test`) disappear.  Braces in pattern and example strings are written
with their escapes. -/

inductive Pat where
  | eps
  | lit (c : Char)
  | cls (p : Char → Bool)
  | seq (a b : Pat)
  | star (a : Pat)

def cat : List Pat → Pat
  | [] => .eps
  | p :: ps => .seq p (cat ps)

def strLit (s : String) : Pat := cat (s.data.map Pat.lit)

/-- JS `\s`: ASCII whitespace plus the Unicode space characters. -/
def isJsSpace (c : Char) : Bool :=
  c == ' ' || c == '\t' || c == '\n' || c == '\x0b' || c == '\x0c' ||
  c == '\r' || c.toNat == 0xa0 || c.toNat == 0x1680 ||
  (0x2000 ≤ c.toNat && c.toNat ≤ 0x200a) || c.toNat == 0x2028 ||
  c.toNat == 0x2029 || c.toNat == 0x202f || c.toNat == 0x205f ||
  c.toNat == 0x3000 || c.toNat == 0xfeff

/-- JS `\w`: `[A-Za-z0-9_]`. -/
def isWordChar (c : Char) : Bool :=
  ('a' ≤ c && c ≤ 'z') || ('A' ≤ c && c ≤ 'Z') || ('0' ≤ c && c ≤ '9') ||
  c == '_'

def lbraceC : Char := Char.ofNat 123

def rbraceC : Char := Char.ofNat 125

/-- Backtracking matcher: does some prefix of `s` match `p`, continuing
with `k` on the rest?  Fuel only forces termination; `patTest` supplies
enough fuel that it never runs out on these patterns. -/
def matchCont : Nat → Pat → List Char → (List Char → Bool) → Bool
  | 0, _, _, _ => false
  | _ + 1, .eps, s, k => k s
  | _ + 1, .lit c, s, k =>
      match s with
      | [] => false
      | c2 :: rest => c2 == c && k rest
  | _ + 1, .cls p, s, k =>
      match s with
      | [] => false
      | c2 :: rest => p c2 && k rest
  | n + 1, .seq a b, s, k => matchCont n a s (fun s2 => matchCont n b s2 k)
  | n + 1, .star a, s, k =>
      k s || matchCont n a s (fun s2 =>
        if s2.length < s.length then matchCont n (.star a) s2 k else false)

/-- `.test`: try a match starting at every position. -/
def searchList (fuel : Nat) (p : Pat) : List Char → Bool
  | [] => matchCont fuel p [] (fun _ => true)
  | c :: rest =>
      matchCont fuel p (c :: rest) (fun _ => true) || searchList fuel p rest

def patTest (p : Pat) (s : String) : Bool :=
  searchList (200 * (s.data.length + 2)) p s.data

def wsStar : Pat := .star (.cls isJsSpace)

def wsPlus : Pat := .seq (.cls isJsSpace) wsStar

def wordPlus : Pat := .seq (.cls isWordChar) (.star (.cls isWordChar))

/-- One line comment with trailing whitespace. -/
def lineCommentUnit : Pat :=
  cat [strLit ("//"), .star (.cls (fun c => !(c == '\n'))), .lit '\n', wsStar]

/-- One block comment (lazy body) with trailing whitespace. -/
def blockCommentUnit : Pat :=
  cat [strLit ("/*"), .star (.cls (fun _ => true)), strLit ("*/"), wsStar]

def commentsPat : Pat := .seq (.star lineCommentUnit) (.star blockCommentUnit)

/-- Pattern 1: a body that only contains a bare empty-object return. -/
def emptyReturnPat : Pat :=
  cat [.lit lbraceC, wsStar, commentsPat, strLit ("return"), wsStar,
    .lit lbraceC, wsStar, .lit rbraceC, wsStar, .lit ';', wsStar,
    .lit rbraceC]

/-- Pattern 2: a body that only contains a type-annotated empty return. -/
def emptyReturnAsPat : Pat :=
  cat [.lit lbraceC, wsStar, commentsPat, strLit ("return"), wsStar,
    .lit lbraceC, wsStar, .lit rbraceC, wsStar, strLit ("as"), wsPlus,
    wordPlus, wsStar, .lit ';', wsStar, .lit rbraceC]

/-- Pattern 3: a completely empty method body. -/
def emptyBodyPat : Pat :=
  cat [.lit lbraceC, wsStar, commentsPat, wsStar, .lit rbraceC]

/-- mapper-factory.ts isEmptyOrAbstractMethod on the method's source text
(`method.toString()`).  The code's try/catch returns false only if
serialization itself throws, which has no counterpart here: the decision
is a function of the source text alone. -/
def isEmptyOrAbstractMethod (methodSource : String) : Bool :=
  patTest emptyReturnPat methodSource ||
  patTest emptyReturnAsPat methodSource ||
  patTest emptyBodyPat methodSource

/-! mapper-factory.ts createMapperProxy / executeAutoTransform.  A mapper
class is its constructor identity plus its instance shape (`cls`), its
prototype methods (source text and original behaviour), and the
`design:returntype` reflection metadata per method name.  A call through
the proxy either routes to `transform` (placeholder method) or runs the
original function (custom method); errors are surfaced as `CallResult`. -/

structure JSMethod where
  src : String
  impl : JSValue → List JSValue → JSValue

structure MapperClass where
  cls : JSClass
  methods : List (String × JSMethod)
  returnType : String → Option JSClass

structure MapperProxy where
  mapper : MapperClass
  inst : JSValue

/-- Proxy creation: instantiate the class (possible even for a TS
abstract class) and wrap it; no metadata is consulted here. -/
def createMapperProxy (mc : MapperClass) : MapperProxy :=
  { mapper := mc, inst := newInstance mc.cls }

inductive CallResult where
  | ok (v : JSValue)
  | error (msg : String)

/-- The inner error of executeAutoTransform when reflection metadata is
absent. -/
def missingMetadataMsg (methodName : String) : String :=
  "Unable to get return type for method " ++ methodName ++
    ". Please ensure TypeScript\x27s experimentalDecorators and " ++
    "emitDecoratorMetadata options are enabled."

/-- The outer wrapper applied by executeAutoTransform's catch block. -/
def autoTransformFailMsg (methodName msg : String) : String :=
  "Auto transform failed (method: " ++ methodName ++ "): " ++ msg

/-- executeAutoTransform: look up `design:returntype`; throw (wrapped) if
absent, otherwise `transform(target, methodName, input, returnType)`.
`transform` itself is total in the model, so the catch only ever sees the
missing-metadata throw. -/
def executeAutoTransform (s : MetadataStorage) (mc : MapperClass)
    (methodName : String) (input : JSValue) : CallResult :=
  match mc.returnType methodName with
  | none =>
      .error (autoTransformFailMsg methodName (missingMetadataMsg methodName))
  | some returnType =>
      .ok (transform s mc.cls.key methodName input returnType)

/-- A method call `proxy.m(...args)` through the proxy's `get` trap: the
returned wrapper classifies the original function on every call and
either auto-transforms on `args[0]` or runs the original.  Calling a
property that is not a function is a TypeError at the call site. -/
def proxyInvoke (s : MetadataStorage) (p : MapperProxy) (propKey : String)
    (args : List JSValue) : CallResult :=
  match lookupStr p.mapper.methods propKey with
  | none => .error ("TypeError: not a function")
  | some original =>
      if isEmptyOrAbstractMethod original.src then
        executeAutoTransform s p.mapper propKey (args.headD .undefined)
      else
        .ok (original.impl p.inst args)

/-! Basic lemmas about fields, property access and path segments. -/

theorem lookupStr_setField_self {α : Type} (l : List (String × α)) (key : String)
    (v : α) : lookupStr (setField l key v) key = some v := by
  induction l with
  | nil => simp [setField, lookupStr]
  | cons hd tl ih =>
      obtain ⟨k, w⟩ := hd
      by_cases h : k = key <;> simp [setField, lookupStr, h, ih]

theorem lookupStr_setField_ne {α : Type} (l : List (String × α))
    (key key2 : String) (v : α) (h : key ≠ key2) :
    lookupStr (setField l key v) key2 = lookupStr l key2 := by
  induction l with
  | nil => simp [setField, lookupStr, h]
  | cons hd tl ih =>
      obtain ⟨k, w⟩ := hd
      by_cases hk : k = key
      · subst hk; simp [setField, lookupStr, h, ih]
      · simp [setField, lookupStr, hk, ih]

theorem getProp_setProp_self (o : JSValue) (key : String) (v : JSValue)
    (h : isObj o = true) : (o.setProp key v).getProp key = v := by
  cases o <;> simp [isObj] at h
  simp [JSValue.setProp, JSValue.getProp, lookupStr_setField_self]

theorem getProp_setProp_ne (o : JSValue) (key key2 : String) (v : JSValue)
    (h : key ≠ key2) : (o.setProp key v).getProp key2 = o.getProp key2 := by
  cases o <;> simp [JSValue.setProp, JSValue.getProp]
  rw [lookupStr_setField_ne _ _ _ _ h]

theorem isObj_setProp (o : JSValue) (key : String) (v : JSValue)
    (h : isObj o = true) : isObj (o.setProp key v) = true := by
  cases o <;> simp_all [isObj, JSValue.setProp]

theorem isObj_setSegs (o : JSValue) (segs : List String) (v : JSValue)
    (h : isObj o = true) : isObj (setSegs o segs v) = true := by
  cases segs with
  | nil => simpa [setSegs] using h
  | cons key rest =>
      cases rest with
      | nil => simpa [setSegs] using isObj_setProp o key v h
      | cons key2 rest2 => simpa [setSegs] using isObj_setProp o key _ h

theorem isObj_setValue (o : JSValue) (path : String) (v : JSValue)
    (h : isObj o = true) : isObj (setValue o path v) = true :=
  isObj_setSegs o (splitDot path) v h

theorem getSegs_undefined_all (segs : List String) : getSegs .undefined segs = .undefined := by
  induction segs with
  | nil => rfl
  | cons key rest ih => simpa [getSegs, isNullish] using ih

theorem getSegs_nullish_cons (o : JSValue) (key : String) (segs : List String)
    (h : isNullish o = true) : getSegs o (key :: segs) = .undefined := by
  simp [getSegs, h, getSegs_undefined_all]

theorem getSegs_append (o : JSValue) (l1 l2 : List String) :
    getSegs o (l1 ++ l2) = getSegs (getSegs o l1) l2 := by
  induction l1 generalizing o with
  | nil => rfl
  | cons key rest ih => simp [getSegs, ih]

theorem splitChars_ne_nil (l : List Char) : splitChars l ≠ [] := by
  cases l with
  | nil => simp [splitChars]
  | cons c cs =>
      by_cases h : c = '.'
      · simp [splitChars, h]
      · simp only [splitChars, h, if_false]
        cases splitChars cs <;> simp

theorem splitDot_ne_nil (s : String) : splitDot s ≠ [] := by
  intro h
  exact splitChars_ne_nil s.data (by simpa [splitDot] using h)

theorem getValue_nullish (o : JSValue) (path : String)
    (h : isNullish o = true) : getValue o path = .undefined := by
  unfold getValue
  cases hsp : splitDot path with
  | nil => exact absurd hsp (splitDot_ne_nil path)
  | cons key rest => exact getSegs_nullish_cons o key rest h

/-! Lemmas about the automatic matching pass. -/

/-- `distinctKeys` holds of `Object.keys` output for any real JS object
(one binding per key); it is the hypothesis under which the pass's
per-key behaviour is characterised. -/
def distinctKeys : List String → Bool
  | [] => true
  | k :: ks => !hasKey ks k && distinctKeys ks

theorem getPropChain_setProp_ne (pf : List (String × JSValue))
    (o : JSValue) (key key2 : String) (v : JSValue) (h : key ≠ key2) :
    getPropChain pf (o.setProp key v) key2 = getPropChain pf o key2 := by
  cases o <;> simp only [JSValue.setProp, getPropChain]
  rw [lookupStr_setField_ne _ _ _ _ h]

theorem autoStep_getProp_ne (input : JSValue) (pf : List (String × JSValue))
    (oks used : List String) (o : JSValue) (key key2 : String)
    (h : key ≠ key2) :
    (autoStep input pf oks used o key).getProp key2 = o.getProp key2 := by
  simp only [autoStep]
  split
  · split
    · exact getProp_setProp_ne o key key2 _ h
    · rfl
  · rfl

theorem autoStep_getPropChain_ne (input : JSValue)
    (pf : List (String × JSValue)) (oks used : List String) (o : JSValue)
    (key key2 : String) (h : key ≠ key2) :
    getPropChain pf (autoStep input pf oks used o key) key2 =
      getPropChain pf o key2 := by
  simp only [autoStep]
  split
  · split
    · exact getPropChain_setProp_ne pf o key key2 _ h
    · rfl
  · rfl

theorem autoStep_isObj (input : JSValue) (pf : List (String × JSValue))
    (oks used : List String) (o : JSValue) (key : String)
    (h : isObj o = true) :
    isObj (autoStep input pf oks used o key) = true := by
  simp only [autoStep]
  split
  · split
    · exact isObj_setProp o key _ h
    · exact h
  · exact h

theorem autoStep_used (input : JSValue) (pf : List (String × JSValue))
    (oks used : List String) (o : JSValue) (key : String)
    (h : hasKey used key = true) :
    autoStep input pf oks used o key = o := by
  simp [autoStep, h]

theorem autoFold_getProp_notMem (input : JSValue)
    (pf : List (String × JSValue)) (oks used : List String)
    (k : String) (keys : List String) (o : JSValue)
    (h : hasKey keys k = false) :
    (keys.foldl (autoStep input pf oks used) o).getProp k = o.getProp k := by
  induction keys generalizing o with
  | nil => rfl
  | cons key rest ih =>
      by_cases hk : key = k
      · simp [hasKey, hk] at h
      · simp only [hasKey, hk, if_false] at h
        rw [List.foldl_cons, ih _ h, autoStep_getProp_ne _ _ _ _ _ _ _ hk]

theorem autoFold_getProp_used (input : JSValue)
    (pf : List (String × JSValue)) (oks used : List String)
    (k : String) (keys : List String) (o : JSValue)
    (h : hasKey used k = true) :
    (keys.foldl (autoStep input pf oks used) o).getProp k = o.getProp k := by
  induction keys generalizing o with
  | nil => rfl
  | cons key rest ih =>
      by_cases hk : key = k
      · subst hk
        rw [List.foldl_cons, autoStep_used _ _ _ _ _ _ h, ih]
      · rw [List.foldl_cons, ih, autoStep_getProp_ne _ _ _ _ _ _ _ hk]

theorem autoFold_getProp_mem (input : JSValue)
    (pf : List (String × JSValue)) (oks used : List String)
    (k : String) (keys : List String) (o : JSValue)
    (hd : distinctKeys keys = true) (hm : hasKey keys k = true)
    (ho : hasKey oks k = true) (hu : hasKey used k = false)
    (hobj : isObj o = true) :
    (keys.foldl (autoStep input pf oks used) o).getProp k =
      if isUndefined (getPropChain pf o k) ||
          typeofJS (input.getProp k) == typeofJS (getPropChain pf o k)
      then input.getProp k else o.getProp k := by
  induction keys generalizing o with
  | nil => simp [hasKey] at hm
  | cons key rest ih =>
      simp only [distinctKeys, Bool.and_eq_true, Bool.not_eq_true'] at hd
      by_cases hk : key = k
      · subst hk
        rw [List.foldl_cons, autoFold_getProp_notMem _ _ _ _ _ _ _ hd.1]
        simp only [autoStep]
        rw [ho, hu]
        simp only [Bool.not_false, Bool.and_self, if_true]
        split
        · exact getProp_setProp_self o key _ hobj
        · rfl
      · simp only [hasKey, hk, if_false] at hm
        rw [List.foldl_cons, ih _ hd.2 hm (autoStep_isObj _ _ _ _ _ _ hobj),
          autoStep_getProp_ne _ _ _ _ _ _ _ hk,
          autoStep_getPropChain_ne _ _ _ _ _ _ _ hk]

/-! Lemmas about the rule registry. -/

theorem lookupStr_pushRule_self (ms : List (String × List MappingOptions))
    (method : String) (o : MappingOptions) :
    lookupStr (pushRule ms method o) method =
      some ((lookupStr ms method).getD [] ++ [o]) := by
  induction ms with
  | nil => simp [pushRule, lookupStr]
  | cons hd tl ih =>
      obtain ⟨m, os⟩ := hd
      by_cases h : m = method <;> simp [pushRule, lookupStr, h, ih]

theorem lookupNat_updateMeta_self (ms : List (Nat × MapperMeta)) (key : Nat)
    (meta : MapperMeta) (method : String) (o : MappingOptions)
    (h : lookupNat ms key = some meta) :
    lookupNat (updateMeta ms key method o) key =
      some ⟨pushRule meta.methods method o⟩ := by
  induction ms with
  | nil => simp [lookupNat] at h
  | cons hd tl ih =>
      obtain ⟨k, m2⟩ := hd
      by_cases hk : k = key
      · simp only [lookupNat, hk, if_true] at h
        cases h
        simp [updateMeta, lookupNat, hk]
      · simp only [lookupNat, hk, if_false] at h
        simp [updateMeta, lookupNat, hk, ih h]

theorem updateMeta_append_fresh (ms : List (Nat × MapperMeta)) (key : Nat)
    (method : String) (o : MappingOptions)
    (h : lookupNat ms key = none) :
    updateMeta (ms ++ [(key, ⟨[]⟩)]) key method o =
      ms ++ [(key, ⟨[(method, [o])]⟩)] := by
  induction ms with
  | nil => simp [updateMeta, pushRule]
  | cons hd tl ih =>
      obtain ⟨k, m2⟩ := hd
      by_cases hk : k = key
      · simp [lookupNat, hk] at h
      · simp only [lookupNat, hk, if_false] at h
        simp [updateMeta, hk, ih h]

theorem lookupNat_append_self (ms : List (Nat × MapperMeta)) (key : Nat)
    (x : MapperMeta) (h : lookupNat ms key = none) :
    lookupNat (ms ++ [(key, x)]) key = some x := by
  induction ms with
  | nil => simp [lookupNat]
  | cons hd tl ih =>
      obtain ⟨k, m2⟩ := hd
      by_cases hk : k = key
      · simp [lookupNat, hk] at h
      · simp only [lookupNat, hk, if_false] at h
        simp [lookupNat, hk, ih h]

/-! Round-trip machinery for the path accessor. -/

/-- The claim's qualifier on `setValue` round-trips: walking the
intermediate segments, every existing intermediate is a container and
every missing (or nullish) one will be created fresh. -/
def canSet : JSValue → List String → Bool
  | _, [] => true
  | o, key :: rest =>
      let child := o.getProp key
      if isNullish child then true else isObj child && canSet child rest

theorem canSet_emptyObj (segs : List String) :
    canSet (.obj []) segs = true := by
  cases segs with
  | nil => rfl
  | cons key rest => simp [canSet, JSValue.getProp, lookupStr, isNullish]

theorem getSegs_cons_obj (o : JSValue) (key : String) (rest : List String)
    (ho : isObj o = true) :
    getSegs o (key :: rest) = getSegs (o.getProp key) rest := by
  have h : isNullish o = false := by
    cases o <;> simp [isObj, isNullish] at ho ⊢
  simp [getSegs, h]

theorem getSegs_setSegs (segs : List String) :
    ∀ (o v : JSValue), segs ≠ [] → isObj o = true →
      canSet o segs.dropLast = true →
      getSegs (setSegs o segs v) segs = v := by
  induction segs with
  | nil => intro o v h; exact absurd rfl h
  | cons key rest ih =>
      intro o v _ ho hc
      obtain ⟨fs, rfl⟩ :=
        (by cases o <;> simp [isObj] at ho ⊢ : ∃ fs, o = .obj fs)
      cases rest with
      | nil =>
          simp [setSegs, getSegs, JSValue.setProp, isNullish,
            JSValue.getProp, lookupStr_setField_self]
      | cons key2 rest2 =>
          have hdrop : (key :: key2 :: rest2).dropLast =
              key :: (key2 :: rest2).dropLast := rfl
          rw [hdrop] at hc
          simp only [canSet] at hc
          simp only [setSegs]
          by_cases hnull : isNullish ((JSValue.obj fs).getProp key) = true
          · rw [if_pos hnull]
            rw [getSegs_cons_obj _ _ _
                (isObj_setProp _ _ _ (by simp [isObj])),
              getProp_setProp_self _ _ _ (by simp [isObj])]
            exact ih _ v (by simp) (by simp [isObj]) (canSet_emptyObj _)
          · rw [if_neg hnull] at hc ⊢
            simp only [Bool.and_eq_true] at hc
            rw [getSegs_cons_obj _ _ _
                (isObj_setProp _ _ _ (by simp [isObj])),
              getProp_setProp_self _ _ _ (by simp [isObj])]
            exact ih _ v (by simp) hc.1 hc.2

theorem isObj_foldl_rules (input : JSValue) (ms : List MappingOptions) :
    ∀ (o : JSValue), isObj o = true →
      isObj (ms.foldl
        (fun o m => setValue o m.target (getValue input m.source)) o) = true := by
  induction ms with
  | nil => intro o h; exact h
  | cons r rest ih =>
      intro o h
      exact ih _ (isObj_setValue _ _ _ h)

theorem isObj_afterExplicit (s : MetadataStorage) (ctorKey : Nat)
    (method : String) (input : JSValue) (outputType : JSClass) :
    isObj (afterExplicit s ctorKey method input outputType) = true :=
  isObj_foldl_rules input _ _ (by simp [newInstance, isObj])

theorem foldl_rules_nullish (input : JSValue) (h : isNullish input = true)
    (ms : List MappingOptions) :
    ∀ (o : JSValue),
      ms.foldl (fun o m => setValue o m.target (getValue input m.source)) o =
        ms.foldl (fun o r => setValue o r.target .undefined) o := by
  induction ms with
  | nil => intro o; rfl
  | cons r rest ih =>
      intro o
      simp only [List.foldl_cons, getValue_nullish input r.source h]
      exact ih _

/-! The claims. -/

/-- C5: `getValue` never throws — it is a total function of the model —
and it indexes segment by segment, short-circuiting to undefined as soon
as the accumulated intermediate value is null or undefined, whatever
segments remain; in particular `getValue({a: null}, 'a.b')` returns
undefined. -/
theorem claim_C5 :
    (∀ (o : JSValue) (segs1 : List String) (key : String)
      (segs2 : List String), isNullish (getSegs o segs1) = true →
      getSegs o (segs1 ++ key :: segs2) = .undefined) ∧
    getValue (.obj [("a", .jnull)]) ("a.b") = .undefined := by
  constructor
  · intro o segs1 key segs2 h
    rw [getSegs_append]
    exact getSegs_nullish_cons _ _ _ h
  · rfl

theorem claim_C5_witness :
    isNullish (getSegs (JSValue.obj [("a", .jnull)]) ["a"]) = true ∧
    getSegs (JSValue.obj [("a", .jnull)]) (["a"] ++ "b" :: []) = .undefined :=
  ⟨rfl, claim_C5.1 (JSValue.obj [("a", .jnull)]) ["a"] ("b") [] rfl⟩

/-- C6: the setValue/getValue round-trip — for an object, a multi-segment
path of non-empty identifier segments whose existing intermediates are
containers (missing or nullish ones are created as fresh containers),
`getValue(setValue(obj, path, v), path)` returns `v`. -/
theorem claim_C6 (o : JSValue) (path : String) (v : JSValue)
    (hobj : isObj o = true)
    (hmulti : 2 ≤ (splitDot path).length)
    (hsegs : (splitDot path).all (fun seg => !(seg == "")) = true)
    (hcreate : canSet o (splitDot path).dropLast = true) :
    getValue (setValue o path v) path = v :=
  getSegs_setSegs (splitDot path) o v (splitDot_ne_nil path) hobj hcreate

theorem claim_C6_witness :
    isObj (JSValue.obj []) = true ∧
    2 ≤ (splitDot ("a.b.c")).length ∧
    (splitDot ("a.b.c")).all (fun seg => !(seg == "")) = true ∧
    canSet (JSValue.obj []) (splitDot ("a.b.c")).dropLast = true ∧
    getValue (setValue (JSValue.obj []) ("a.b.c") (.num 7)) ("a.b.c") =
      .num 7 :=
  ⟨rfl, by decide, by decide, rfl,
    claim_C6 (JSValue.obj []) ("a.b.c") (.num 7) rfl (by decide) (by decide)
      rfl⟩

/-- C10: transform is total in its source argument: when the source is
null or undefined the call still completes — every explicit rule writes
undefined at its target path (getValue on a nullish source yields
undefined for any path), the automatic matching pass iterates over no
keys (`Object.keys(input || {})` is empty), and the result is the
default-constructed target instance updated only by those undefined
writes. -/
theorem claim_C10 (s : MetadataStorage) (ctorKey : Nat) (method : String)
    (input : JSValue) (outputType : JSClass)
    (h : isNullish input = true) :
    transform s ctorKey method input outputType =
      (s.getMappings ctorKey method).foldl
        (fun o r => setValue o r.target .undefined) (newInstance outputType) := by
  have htr : truthy input = false := by
    cases input <;> simp [isNullish, truthy] at h ⊢
  have hkeys : sourceKeys input = [] := by
    simp [sourceKeys, htr, jsKeys]
  unfold transform
  rw [hkeys]
  simp only [List.foldl_nil]
  unfold afterExplicit
  exact foldl_rules_nullish input h _ _

theorem claim_C10_witness :
    isNullish JSValue.jnull = true ∧
    transform ⟨[(1, ⟨[("toDto", [⟨"profile.bio", "bio"⟩])]⟩)]⟩ 1 ("toDto")
        JSValue.jnull ⟨1, [("id", .num 0)], []⟩ =
      (MetadataStorage.getMappings ⟨[(1, ⟨[("toDto", [⟨"profile.bio", "bio"⟩])]⟩)]⟩
          1 ("toDto")).foldl
        (fun o r => setValue o r.target .undefined)
        (newInstance ⟨1, [("id", .num 0)], []⟩) :=
  ⟨rfl, claim_C10 ⟨[(1, ⟨[("toDto", [⟨"profile.bio", "bio"⟩])]⟩)]⟩ 1 ("toDto")
    JSValue.jnull ⟨1, [("id", .num 0)], []⟩ rfl⟩

/-- C1 (amended): during one transform call, the key recorded as
"consumed" for each explicit rule is the rule's FULL dot-separated target
path string, not its first segment; automatic matching is suppressed
exactly for source keys equal to such a full target path — at those keys
the automatic pass leaves the value produced by the explicit-rule pass
untouched. -/
theorem claim_C1_amended (s : MetadataStorage) (ctorKey : Nat)
    (method : String) (input : JSValue) (outputType : JSClass) (k : String)
    (h : hasKey (usedTargets s ctorKey method) k = true) :
    (transform s ctorKey method input outputType).getProp k =
      (afterExplicit s ctorKey method input outputType).getProp k := by
  unfold transform
  exact autoFold_getProp_used _ _ _ _ _ _ _ h

theorem claim_C1_witness :
    hasKey (usedTargets ⟨[(1, ⟨[("toDto", [⟨"fullName", "name"⟩])]⟩)]⟩ 1
      ("toDto")) ("name") = true ∧
    (transform ⟨[(1, ⟨[("toDto", [⟨"fullName", "name"⟩])]⟩)]⟩ 1 ("toDto")
        (.obj [("name", .str ("zzz")), ("fullName", .str ("John"))])
        ⟨9, [("name", .str (""))], []⟩).getProp ("name") =
      (afterExplicit ⟨[(1, ⟨[("toDto", [⟨"fullName", "name"⟩])]⟩)]⟩ 1 ("toDto")
        (.obj [("name", .str ("zzz")), ("fullName", .str ("John"))])
        ⟨9, [("name", .str (""))], []⟩).getProp ("name") :=
  ⟨rfl, claim_C1_amended ⟨[(1, ⟨[("toDto", [⟨"fullName", "name"⟩])]⟩)]⟩ 1
    ("toDto") (.obj [("name", .str ("zzz")), ("fullName", .str ("John"))])
    ⟨9, [("name", .str (""))], []⟩ ("name") rfl⟩

/-- C1 counterexample: with the single rule source 'x' → target 'a.b',
the consumed set records the full string "a.b" and not the first segment
"a"; a source key "a" is therefore NOT suppressed from automatic
matching: the automatic pass overwrites the object the explicit rule had
written under "a" (the value at path 'a.b' was 5 after the explicit pass
and is undefined in the final result), contradicting the claim. -/
theorem claim_C1_counterexample :
    usedTargets ⟨[(1, ⟨[("toDto", [⟨"x", "a.b"⟩])]⟩)]⟩ 1 ("toDto") =
      ["a.b"] ∧
    ("a.b" : String) ≠ "a" ∧
    getValue (afterExplicit ⟨[(1, ⟨[("toDto", [⟨"x", "a.b"⟩])]⟩)]⟩ 1 ("toDto")
        (.obj [("x", .num 5), ("a", .obj [("z", .num 9)])]) ⟨1, [], []⟩)
      ("a.b") = .num 5 ∧
    getValue (transform ⟨[(1, ⟨[("toDto", [⟨"x", "a.b"⟩])]⟩)]⟩ 1 ("toDto")
        (.obj [("x", .num 5), ("a", .obj [("z", .num 9)])]) ⟨1, [], []⟩)
      ("a.b") = .undefined ∧
    JSValue.num 5 ≠ JSValue.undefined :=
  ⟨rfl, by decide, rfl, rfl, fun h => JSValue.noConfusion h⟩

/-- C4: in the automatic matching pass, for a source own-enumerable key
not consumed by an explicit rule and present among the target's keys (own
or inherited), the source value is copied verbatim exactly when the
target's current value — the plain property access `output[key]`, read up
the prototype chain after the explicit pass — is undefined or has the
same runtime typeof as the source's value, and the target is left
unchanged otherwise.  Falsy-but-defined source values are copied onto
undefined defaults; a string source value never overwrites a numeric
default; and for a key present only on the prototype the read yields the
inherited (function-valued) property, whose typeof blocks the copy of
any non-function source value. -/
theorem claim_C4 (s : MetadataStorage) (ctorKey : Nat) (method : String)
    (input : JSValue) (outputType : JSClass) (k : String)
    (hd : distinctKeys (sourceKeys input) = true)
    (hm : hasKey (sourceKeys input) k = true)
    (ho : hasKey (targetKeys s ctorKey method input outputType) k = true)
    (hu : hasKey (usedTargets s ctorKey method) k = false) :
    (transform s ctorKey method input outputType).getProp k =
      if isUndefined (getPropChain outputType.protoFields
            (afterExplicit s ctorKey method input outputType) k)
          || typeofJS (input.getProp k) ==
            typeofJS (getPropChain outputType.protoFields
              (afterExplicit s ctorKey method input outputType) k)
      then input.getProp k
      else (afterExplicit s ctorKey method input outputType).getProp k := by
  unfold transform
  exact autoFold_getProp_mem _ _ _ _ _ _ _ hd hm ho hu
    (isObj_afterExplicit s ctorKey method input outputType)

theorem claim_C4_witness :
    distinctKeys (sourceKeys (.obj [("x", .str ("s"))])) = true ∧
    hasKey (sourceKeys (.obj [("x", .str ("s"))])) ("x") = true ∧
    hasKey (targetKeys ⟨[]⟩ 1 ("toDto") (.obj [("x", .str ("s"))])
      ⟨1, [("x", .num 1)], []⟩) ("x") = true ∧
    hasKey (usedTargets ⟨[]⟩ 1 ("toDto")) ("x") = false ∧
    (transform ⟨[]⟩ 1 ("toDto") (.obj [("x", .str ("s"))])
        ⟨1, [("x", .num 1)], []⟩).getProp ("x") =
      (if isUndefined (getPropChain []
            (afterExplicit ⟨[]⟩ 1 ("toDto") (.obj [("x", .str ("s"))])
              ⟨1, [("x", .num 1)], []⟩) ("x"))
          || typeofJS ((JSValue.obj [("x", .str ("s"))]).getProp ("x")) ==
            typeofJS (getPropChain []
              (afterExplicit ⟨[]⟩ 1 ("toDto") (.obj [("x", .str ("s"))])
                ⟨1, [("x", .num 1)], []⟩) ("x"))
      then (JSValue.obj [("x", .str ("s"))]).getProp ("x")
      else (afterExplicit ⟨[]⟩ 1 ("toDto") (.obj [("x", .str ("s"))])
        ⟨1, [("x", .num 1)], []⟩).getProp ("x")) ∧
    distinctKeys (sourceKeys (.obj [("m", .num 5)])) = true ∧
    hasKey (sourceKeys (.obj [("m", .num 5)])) ("m") = true ∧
    hasKey (targetKeys ⟨[]⟩ 1 ("toDto") (.obj [("m", .num 5)])
      ⟨1, [], [("m", .func 0)]⟩) ("m") = true ∧
    hasKey (usedTargets ⟨[]⟩ 1 ("toDto")) ("m") = false ∧
    (transform ⟨[]⟩ 1 ("toDto") (.obj [("m", .num 5)])
        ⟨1, [], [("m", .func 0)]⟩).getProp ("m") =
      (if isUndefined (getPropChain [("m", .func 0)]
            (afterExplicit ⟨[]⟩ 1 ("toDto") (.obj [("m", .num 5)])
              ⟨1, [], [("m", .func 0)]⟩) ("m"))
          || typeofJS ((JSValue.obj [("m", .num 5)]).getProp ("m")) ==
            typeofJS (getPropChain [("m", .func 0)]
              (afterExplicit ⟨[]⟩ 1 ("toDto") (.obj [("m", .num 5)])
                ⟨1, [], [("m", .func 0)]⟩) ("m"))
      then (JSValue.obj [("m", .num 5)]).getProp ("m")
      else (afterExplicit ⟨[]⟩ 1 ("toDto") (.obj [("m", .num 5)])
        ⟨1, [], [("m", .func 0)]⟩).getProp ("m")) :=
  ⟨rfl, rfl, rfl, rfl,
    claim_C4 ⟨[]⟩ 1 ("toDto") (.obj [("x", .str ("s"))])
      ⟨1, [("x", .num 1)], []⟩ ("x") rfl rfl rfl rfl,
    rfl, rfl, rfl, rfl,
    claim_C4 ⟨[]⟩ 1 ("toDto") (.obj [("m", .num 5)])
      ⟨1, [], [("m", .func 0)]⟩ ("m") rfl rfl rfl rfl⟩

/-- C7: when two explicit rules registered for the same mapper method
target the same path 'name', transform applies them in registration
order, so the later-registered rule's write wins: the final value at
'name' is the value read from the later rule's source path, and no error
is raised (the model is total). -/
theorem claim_C7 (s : MetadataStorage) (ctorKey : Nat) (method : String)
    (input : JSValue) (outputType : JSClass) (src1 src2 : String)
    (h : s.getMappings ctorKey method = [⟨src1, "name"⟩, ⟨src2, "name"⟩]) :
    (transform s ctorKey method input outputType).getProp ("name") =
      getValue input src2 := by
  have hused : hasKey (usedTargets s ctorKey method) ("name") = true := by
    simp [usedTargets, h, hasKey]
  unfold transform
  rw [autoFold_getProp_used _ _ _ _ _ _ _ hused]
  unfold afterExplicit
  rw [h]
  simp only [List.foldl_cons, List.foldl_nil]
  have hsingle : ∀ (o v : JSValue),
      setValue o ("name") v = o.setProp ("name") v := fun o v => rfl
  rw [hsingle, hsingle]
  exact getProp_setProp_self _ _ _
    (isObj_setProp _ _ _ (by simp [newInstance, isObj]))

theorem claim_C7_witness :
    MetadataStorage.getMappings
        ⟨[(1, ⟨[("toDto", [⟨"a", "name"⟩, ⟨"b", "name"⟩])]⟩)]⟩ 1 ("toDto") =
      [⟨"a", "name"⟩, ⟨"b", "name"⟩] ∧
    (transform ⟨[(1, ⟨[("toDto", [⟨"a", "name"⟩, ⟨"b", "name"⟩])]⟩)]⟩ 1
        ("toDto") (.obj [("a", .str ("first")), ("b", .str ("second"))])
        ⟨1, [("name", .str (""))], []⟩).getProp ("name") =
      getValue (.obj [("a", .str ("first")), ("b", .str ("second"))]) ("b") :=
  ⟨rfl, claim_C7 ⟨[(1, ⟨[("toDto", [⟨"a", "name"⟩, ⟨"b", "name"⟩])]⟩)]⟩ 1
    ("toDto") (.obj [("a", .str ("first")), ("b", .str ("second"))])
    ⟨1, [("name", .str (""))], []⟩ ("a") ("b") rfl⟩

theorem registerMapping_fresh (s : MetadataStorage) (key : Nat)
    (method : String) (o : MappingOptions)
    (h : lookupNat s.mappers key = none) :
    s.registerMapping key method o =
      ⟨s.mappers ++ [(key, ⟨[(method, [o])]⟩)]⟩ := by
  unfold MetadataStorage.registerMapping MetadataStorage.registerMapper
  rw [h]
  simp only [Option.isSome_none, Bool.false_eq_true, if_false]
  exact congrArg MetadataStorage.mk (updateMeta_append_fresh _ _ _ _ h)

theorem registerMapping_append (s : MetadataStorage) (key : Nat)
    (method : String) (o : MappingOptions) :
    (s.registerMapping key method o).getMappings key method =
      s.getMappings key method ++ [o] := by
  cases hs : lookupNat s.mappers key with
  | none =>
      rw [registerMapping_fresh s key method o hs]
      simp [MetadataStorage.getMappings, lookupNat_append_self _ _ _ hs,
        lookupStr, hs]
  | some meta =>
      have hmap : (s.registerMapping key method o).mappers =
          updateMeta s.mappers key method o := by
        unfold MetadataStorage.registerMapping MetadataStorage.registerMapper
        rw [hs]
        rfl
      unfold MetadataStorage.getMappings
      rw [hmap, lookupNat_updateMeta_self _ _ _ _ _ hs, hs]
      simp [lookupStr_pushRule_self]

/-- C8: the registry never fails — `getMappings` returns the rules pushed
for a (type, method) pair in exactly registration order (each
`registerMapping` appends one rule at the end), and the empty list when
the type or the method was never registered; registering a rule for an
unseen type first auto-registers the type and then appends. -/
theorem claim_C8 (s : MetadataStorage) (key : Nat) (method : String)
    (o : MappingOptions) :
    (lookupNat s.mappers key = none → s.getMappings key method = []) ∧
    (∀ meta, lookupNat s.mappers key = some meta →
      lookupStr meta.methods method = none →
      s.getMappings key method = []) ∧
    ((s.registerMapping key method o).getMappings key method =
      s.getMappings key method ++ [o]) ∧
    (lookupNat s.mappers key = none →
      s.registerMapping key method o =
        ⟨s.mappers ++ [(key, ⟨[(method, [o])]⟩)]⟩) := by
  refine ⟨?_, ?_, registerMapping_append s key method o,
    registerMapping_fresh s key method o⟩
  · intro h
    simp [MetadataStorage.getMappings, h]
  · intro meta h1 h2
    simp [MetadataStorage.getMappings, h1, h2]

theorem claim_C8_witness :
    (MetadataStorage.getMappings ⟨[]⟩ 1 ("toDto") = []) ∧
    (MetadataStorage.getMappings ⟨[(2, ⟨[]⟩)]⟩ 2 ("toDto") = []) ∧
    ((MetadataStorage.registerMapping ⟨[]⟩ 1 ("toDto")
        ⟨"fullName", "name"⟩).getMappings 1 ("toDto") =
      MetadataStorage.getMappings ⟨[]⟩ 1 ("toDto") ++ [⟨"fullName", "name"⟩]) ∧
    (MetadataStorage.registerMapping ⟨[]⟩ 1 ("toDto") ⟨"fullName", "name"⟩ =
      ⟨[] ++ [(1, ⟨[("toDto", [⟨"fullName", "name"⟩])]⟩)]⟩) :=
  ⟨(claim_C8 ⟨[]⟩ 1 ("toDto") ⟨"fullName", "name"⟩).1 rfl,
    (claim_C8 ⟨[(2, ⟨[]⟩)]⟩ 2 ("toDto") ⟨"fullName", "name"⟩).2.1 ⟨[]⟩ rfl rfl,
    (claim_C8 ⟨[]⟩ 1 ("toDto") ⟨"fullName", "name"⟩).2.2.1,
    (claim_C8 ⟨[]⟩ 1 ("toDto") ⟨"fullName", "name"⟩).2.2.2 rfl⟩

/-- C2 counterexample: this function body contains assignments and extra
statements — by the claim it must classify as "custom" (false) — yet the
classifier returns "placeholder" (true): the `.test` calls search for
the empty-body patterns in ANY substring of the source, and the empty
object literal in `const dto = \x7b\x7d;` matches the empty-body
pattern. -/
theorem claim_C2_counterexample :
    isEmptyOrAbstractMethod
      ("toDto(entity) \x7b const dto = \x7b\x7d; dto.extra = 1; return dto; \x7d")
      = true := by decide

/-- C2 (amended): the classifier decides from the function's source text
alone by searching it for three fixed empty-body patterns; a method whose
body is exactly `return \x7b\x7d as Dto;` classifies as placeholder, a
completely empty body classifies as placeholder, and a body containing
real statements classifies as custom only provided no substring of the
source (such as an empty object literal) matches one of the patterns. -/
theorem claim_C2_amended :
    isEmptyOrAbstractMethod
      ("toDto(entity) \x7b return \x7b\x7d as UserDto; \x7d") = true ∧
    isEmptyOrAbstractMethod
      ("toDtoWithCustomLogic(entity) \x7b const dto = new UserDto(); dto.name = entity.fullName; return dto; \x7d")
      = false ∧
    isEmptyOrAbstractMethod ("noop() \x7b \x7d") = true :=
  ⟨by decide, by decide, by decide⟩

/-- C3: for a mapper method classified as placeholder whose return-type
metadata resolves to a constructor, a call through the proxy returns
exactly the result of calling `transform` directly with the same
constructor key, method name and first argument; arguments beyond the
first are ignored on this path. -/
theorem claim_C3 (s : MetadataStorage) (mc : MapperClass) (name : String)
    (meth : JSMethod) (entity : JSValue) (rest : List JSValue) (rt : JSClass)
    (hm : lookupStr mc.methods name = some meth)
    (hph : isEmptyOrAbstractMethod meth.src = true)
    (hrt : mc.returnType name = some rt) :
    proxyInvoke s (createMapperProxy mc) name (entity :: rest) =
      .ok (transform s mc.cls.key name entity rt) := by
  simp [proxyInvoke, createMapperProxy, executeAutoTransform, hm, hph, hrt]

theorem claim_C3_witness :
    isEmptyOrAbstractMethod
      ("toDto(_entity) \x7b\n    return \x7b\x7d as UserDto;\n  \x7d")
      = true ∧
    proxyInvoke ⟨[]⟩ (createMapperProxy ⟨⟨1, [], []⟩,
        [("toDto",
          ⟨"toDto(_entity) \x7b\n    return \x7b\x7d as UserDto;\n  \x7d",
            fun _ _ => .undefined⟩)],
        fun n => if n = "toDto" then some ⟨2, [("id", .num 0)], []⟩ else none⟩)
      ("toDto") (.obj [("id", .num 3)] :: [.num 99]) =
      .ok (transform ⟨[]⟩ 1 ("toDto") (.obj [("id", .num 3)])
        ⟨2, [("id", .num 0)], []⟩) :=
  ⟨by decide,
    claim_C3 ⟨[]⟩ ⟨⟨1, [], []⟩,
      [("toDto",
        ⟨"toDto(_entity) \x7b\n    return \x7b\x7d as UserDto;\n  \x7d",
          fun _ _ => .undefined⟩)],
      fun n => if n = "toDto" then some ⟨2, [("id", .num 0)], []⟩ else none⟩
      ("toDto")
      ⟨"toDto(_entity) \x7b\n    return \x7b\x7d as UserDto;\n  \x7d",
        fun _ _ => .undefined⟩
      (.obj [("id", .num 3)]) [.num 99] ⟨2, [("id", .num 0)], []⟩
      rfl (by decide) rfl⟩

/-- C9: invoking a placeholder-classified method through the proxy when
no return-type metadata is available fails with an error whose message
names the method; proxy creation itself consults no metadata and
succeeds — the instance is constructed — so the failure occurs at method
call time only. -/
theorem claim_C9 (s : MetadataStorage) (mc : MapperClass) (name : String)
    (meth : JSMethod) (args : List JSValue)
    (hm : lookupStr mc.methods name = some meth)
    (hph : isEmptyOrAbstractMethod meth.src = true)
    (hrt : mc.returnType name = none) :
    proxyInvoke s (createMapperProxy mc) name args =
      .error (autoTransformFailMsg name (missingMetadataMsg name)) ∧
    (∃ pre post,
      autoTransformFailMsg name (missingMetadataMsg name) =
        pre ++ name ++ post) ∧
    (createMapperProxy mc).inst = newInstance mc.cls := by
  refine ⟨?_,
    ⟨"Auto transform failed (method: ",
      "): " ++ missingMetadataMsg name,
      by simp [autoTransformFailMsg, String.append_assoc]⟩, rfl⟩
  simp [proxyInvoke, createMapperProxy, executeAutoTransform, hm, hph, hrt]

theorem claim_C9_witness :
    isEmptyOrAbstractMethod ("toEntity(_dto) \x7b return \x7b\x7d; \x7d")
      = true ∧
    proxyInvoke ⟨[]⟩ (createMapperProxy ⟨⟨1, [], []⟩,
        [("toEntity",
          ⟨"toEntity(_dto) \x7b return \x7b\x7d; \x7d", fun _ _ => .undefined⟩)],
        fun _ => none⟩)
      ("toEntity") [] =
      .error (autoTransformFailMsg ("toEntity")
        (missingMetadataMsg ("toEntity"))) :=
  ⟨by decide,
    (claim_C9 ⟨[]⟩ ⟨⟨1, [], []⟩,
      [("toEntity",
        ⟨"toEntity(_dto) \x7b return \x7b\x7d; \x7d", fun _ _ => .undefined⟩)],
      fun _ => none⟩
      ("toEntity")
      ⟨"toEntity(_dto) \x7b return \x7b\x7d; \x7d", fun _ _ => .undefined⟩
      [] rfl (by decide) rfl).1⟩

end NestMapper
